import Mathlib

/-!
# PitchMix — verification of the Situational Aggregation & Recommendation Engine

Shallow embedding of the PitchMix backend:
* `src/backend/etl/load_pitches.py` — CSV ingestion (header resolution, row
  normalization, pitcher registry, event insertion);
* `src/backend/api/main.py` — the recommendation scorer with its fallback
  cascade, the usage breakdown and the pitch-location summary endpoints.

Python floats are modelled as `ℚ` (all arithmetic in scope is rate arithmetic
on small integer counts), SQL rows as Lean lists, and the SQLite store as a
list of inserted records in insertion order.
-/

namespace PitchMix

/-! ## String helpers

Python string primitives used by the ETL, re-implemented on `List Char` so
that every definition is executable and kernel-reducible. -/

/-- Drop matching characters from both ends of a character list
(Python `str.strip`, with an arbitrary character predicate). -/
def stripWhile (p : Char → Bool) (cs : List Char) : List Char :=
  ((cs.dropWhile p).reverse.dropWhile p).reverse

/-- `sanitize_header` from `load_pitches.py`: remove every BOM character,
strip surrounding whitespace, then strip surrounding double quotes. -/
def sanitize_header (s : String) : String :=
  String.mk (stripWhile (fun c => c == '"')
    (stripWhile Char.isWhitespace (s.toList.filter (fun c => c.toNat != 0xFEFF))))

/-- Python `str.strip()` (whitespace on both ends). -/
def pyStrip (s : String) : String :=
  String.mk (stripWhile Char.isWhitespace s.toList)

/-- Python `str.lower()` restricted to the ASCII case folding that matters
for the data in scope. -/
def pyLower (s : String) : String :=
  String.mk (s.toList.map Char.toLower)

/-- Character-list prefix test (Python `str.startswith` / SQL `LIKE 'x%'`). -/
def charsStart : List Char → List Char → Bool
  | [], _ => true
  | _ :: _, [] => false
  | a :: as, b :: bs => a == b && charsStart as bs

/-- String prefix test. -/
def startsWithStr (p s : String) : Bool :=
  charsStart p.toList s.toList

/-- Numeric value of a list of decimal digit characters. -/
def digitsVal (cs : List Char) : Nat :=
  cs.foldl (fun a c => a * 10 + (c.toNat - 48)) 0

/-- Python `int(s)` on a string: optional surrounding whitespace, optional
sign, then decimal digits; any other shape fails. -/
def parseInt (s : String) : Option Int :=
  let t := (pyStrip s).toList
  let sgnBody : Int × List Char :=
    match t with
    | '-' :: rest => (-1, rest)
    | '+' :: rest => (1, rest)
    | _ => (1, t)
  if sgnBody.2 ≠ [] && sgnBody.2.all Char.isDigit then
    some (sgnBody.1 * (digitsVal sgnBody.2 : Int))
  else
    none

/-- Python `float(s)` on the decimal strings occurring in the source data:
optional surrounding whitespace, optional sign, decimal digits with an
optional fractional part. The result is the exact rational value. -/
def parseDecimal (s : String) : Option ℚ :=
  let t := (pyStrip s).toList
  let sgnBody : ℚ × List Char :=
    match t with
    | '-' :: rest => (-1, rest)
    | '+' :: rest => (1, rest)
    | _ => (1, t)
  match (sgnBody.2.span (fun c => c != '.')) with
  | (intPart, []) =>
    if intPart ≠ [] && intPart.all Char.isDigit then
      some (sgnBody.1 * (digitsVal intPart : ℚ))
    else none
  | (intPart, _ :: fracPart) =>
    if (intPart ≠ [] || fracPart ≠ []) && intPart.all Char.isDigit &&
        fracPart.all Char.isDigit && fracPart.all (fun c => c != '.') then
      some (sgnBody.1 * ((digitsVal intPart : ℚ) +
        (digitsVal fracPart : ℚ) / ((10 : ℚ) ^ fracPart.length)))
    else none

/-! ## ETL value coercion (`load_pitches.py`, `to_int` / `to_float`)

A CSV cell is an `Option String`: `none` stands both for a missing key
(`dict.get` returning `None`) and for a `None` value in a short row. -/

/-- `to_int` from `load_pitches.py`: best-effort integer coercion, `None`
(here `none`) on `TypeError`/`ValueError`. -/
def to_int (v : Option String) : Option Int :=
  v.bind parseInt

/-- `to_float` from `load_pitches.py`: `None` for empty/missing input,
best-effort float coercion otherwise. -/
def to_float (v : Option String) : Option ℚ :=
  match v with
  | none => none
  | some s => if s == "" then none else parseDecimal s

/-- Python `x or default` for an optional string, where both `None` and the
empty string are falsy (used for pitcher name / hand / description defaults). -/
def pyOr (v : Option String) (d : String) : String :=
  match v with
  | none => d
  | some s => if s == "" then d else s

/-- Python `x or None` on an optional string: collapses the empty string to
`None` (used for `batter_hand` and `outcome`), and also models the
`if not raw: continue` truthiness checks. -/
def pyOrNone (v : Option String) : Option String :=
  match v with
  | none => none
  | some s => if s == "" then none else some s

/-! ## Data model (`db/schema.sql` as populated by `load_pitches.py`) -/

/-- A row of the `pitchers` table: surrogate `id`, natural key `mlb_id`,
display name and throwing hand from the first sighting. -/
structure PitcherRec where
  id : Int
  mlb_id : Int
  name : String
  throws_hand : String
deriving DecidableEq, Repr

/-- A row of the `pitches` table, exactly the tuple inserted by
`process_csv`. -/
structure Pitch where
  pitcher_id : Int
  game_date : Option String
  inning : Option Int
  top_bottom : Option String
  batter_hand : Option String
  balls : Option Int
  strikes : Option Int
  pitch_type : Option String
  velocity : Option ℚ
  plate_x : Option ℚ
  plate_z : Option ℚ
  sz_top : Option ℚ
  sz_bot : Option ℚ
  description : String
  outcome : Option String
  runs_value : Option ℚ
deriving DecidableEq, Repr

/-- The mutable SQLite state touched by the ETL: the two tables, plus the
next surrogate pitcher id (SQLite row ids start at 1). -/
structure ETLState where
  pitchers : List PitcherRec
  nextPitcherId : Int
  pitches : List Pitch
deriving DecidableEq, Repr

/-- The empty, freshly initialized database. -/
def emptyState : ETLState :=
  { pitchers := [], nextPitcherId := 1, pitches := [] }

/-- `get_or_create_pitcher` from `load_pitches.py`: look up by `mlb_id`
(`SELECT id FROM pitchers WHERE mlb_id = ?`, first match); if found return
its id and leave the store unchanged, otherwise insert a new record carrying
the candidate name/hand and return the fresh id (`cur.lastrowid`). -/
def get_or_create_pitcher (st : ETLState) (mlb_id : Int) (name throws_hand : String) :
    ETLState × Int :=
  match st.pitchers.find? (fun p => p.mlb_id == mlb_id) with
  | some p => (st, p.id)
  | none =>
    ({ st with
        pitchers := st.pitchers ++ [⟨st.nextPitcherId, mlb_id, name, throws_hand⟩],
        nextPitcherId := st.nextPitcherId + 1 },
      st.nextPitcherId)

/-! ## CSV ingestion (`load_pitches.py`, `process_csv` / `main`) -/

/-- A CSV data row as produced by `csv.DictReader`: an association from raw
header names to cell values (`none` = missing / `None`). -/
abbrev Row := List (String × Option String)

/-- `row.get(col)` where `col` may itself be `None` (a column that did not
resolve): `dict.get` returns `None` for a missing or `None` key. -/
def rowGet (row : Row) (col : Option String) : Option String :=
  match col with
  | none => none
  | some c =>
    match row.find? (fun kv => kv.1 == c) with
    | some kv => kv.2
    | none => none

/-- The dict comprehension `{sanitize_header(fn): fn for fn in raw_headers}`
followed by a lookup: later raw headers overwrite earlier ones with the same
sanitized form, so the lookup returns the last match. -/
def colLookup (raw_headers : List String) (name : String) : Option String :=
  (raw_headers.filter (fun fn => sanitize_header fn == name)).getLast?

/-- `col(name, fallback)` from `process_csv`: primary sanitized name first,
then the single documented fallback name. -/
def col (raw_headers : List String) (name : String) (fb : Option String) :
    Option String :=
  match colLookup raw_headers name with
  | some c => some c
  | none =>
    match fb with
    | some f => colLookup raw_headers f
    | none => none

/-- The per-file column-resolution table computed once per CSV by
`process_csv` (one field per `col(...)` call, in source order). -/
structure Cols where
  pitch_type_col : Option String
  pitcher_col : Option String
  player_name_col : Option String
  p_throws_col : Option String
  game_date_col : Option String
  stand_col : Option String
  balls_col : Option String
  strikes_col : Option String
  release_speed_col : Option String
  plate_x_col : Option String
  plate_z_col : Option String
  sz_top_col : Option String
  sz_bot_col : Option String
  inning_col : Option String
  inning_tb_col : Option String
  description_col : Option String
  events_col : Option String

/-- Column resolution for one CSV header, exactly the block of `col(...)`
calls in `process_csv` (only `pitch_type` has a fallback, `pitch_name`). -/
def resolveCols (raw_headers : List String) : Cols where
  pitch_type_col := col raw_headers "pitch_type" (some "pitch_name")
  pitcher_col := col raw_headers "pitcher" none
  player_name_col := col raw_headers "player_name" none
  p_throws_col := col raw_headers "p_throws" none
  game_date_col := col raw_headers "game_date" none
  stand_col := col raw_headers "stand" none
  balls_col := col raw_headers "balls" none
  strikes_col := col raw_headers "strikes" none
  release_speed_col := col raw_headers "release_speed" none
  plate_x_col := col raw_headers "plate_x" none
  plate_z_col := col raw_headers "plate_z" none
  sz_top_col := col raw_headers "sz_top" none
  sz_bot_col := col raw_headers "sz_bot" none
  inning_col := col raw_headers "inning" none
  inning_tb_col := col raw_headers "inning_topbot" none
  description_col := col raw_headers "description" none
  events_col := col raw_headers "events" none

/-- Half-inning normalization from the row loop of `process_csv`:
falsy source text maps to `None`; otherwise the trimmed, lower-cased text is
matched on its leading letter (`t…` → `Top`, `b…` → `Bottom`, else `None`). -/
def normTopBot (raw_tb : Option String) : Option String :=
  match pyOrNone raw_tb with
  | none => none
  | some raw =>
    let t := pyLower (pyStrip raw)
    if startsWithStr "t" t then some "Top"
    else if startsWithStr "b" t then some "Bottom"
    else none

/-- One iteration of the row loop in `process_csv`. Mirrors the source
control flow: check pitcher identity (falsy → skip, unparseable → skip),
resolve the pitcher in the registry, normalize the context fields, check the
pitch type (falsy → skip — note this happens *after* the registry call),
then insert the event. -/
def process_row (cols : Cols) (st : ETLState) (row : Row) : ETLState :=
  match pyOrNone (rowGet row cols.pitcher_col) with
  | none => st
  | some pitcher_raw =>
    match parseInt pitcher_raw with
    | none => st
    | some pitcher_mlb_id =>
      let pitcher_name := pyOr (rowGet row cols.player_name_col) "Unknown Pitcher"
      let throws_hand := pyOr (rowGet row cols.p_throws_col) ""
      let resolved := get_or_create_pitcher st pitcher_mlb_id pitcher_name throws_hand
      let st1 := resolved.1
      let pitcher_id := resolved.2
      let game_date := rowGet row cols.game_date_col
      let inning := to_int (rowGet row cols.inning_col)
      let inning_topbot := normTopBot (rowGet row cols.inning_tb_col)
      let batter_hand := pyOrNone (rowGet row cols.stand_col)
      let balls := to_int (rowGet row cols.balls_col)
      let strikes := to_int (rowGet row cols.strikes_col)
      match pyOrNone (rowGet row cols.pitch_type_col) with
      | none => st1
      | some pitch_type =>
        let ev : Pitch :=
          { pitcher_id := pitcher_id
            game_date := game_date
            inning := inning
            top_bottom := inning_topbot
            batter_hand := batter_hand
            balls := balls
            strikes := strikes
            pitch_type := some pitch_type
            velocity := to_float (rowGet row cols.release_speed_col)
            plate_x := to_float (rowGet row cols.plate_x_col)
            plate_z := to_float (rowGet row cols.plate_z_col)
            sz_top := to_float (rowGet row cols.sz_top_col)
            sz_bot := to_float (rowGet row cols.sz_bot_col)
            description := pyOr (rowGet row cols.description_col) ""
            outcome := pyOrNone (rowGet row cols.events_col)
            runs_value := none }
        { st1 with pitches := st1.pitches ++ [ev] }

/-- A source file as the ETL sees it. `unreadable` stands for any file whose
iteration raises (undecodable bytes, `csv.Error` partway through); `readable`
carries the `DictReader` field names (`none` = no header) and the data rows. -/
inductive SourceFile where
  | unreadable
  | readable (fieldnames : Option (List String)) (rows : List Row)
deriving DecidableEq

/-- The up-front required-column check of `process_csv`:
`not pitcher_col or not pitch_type_col`. -/
def requiredMissing (raw_headers : List String) : Bool :=
  (col raw_headers "pitcher" none).isNone ||
    (col raw_headers "pitch_type" (some "pitch_name")).isNone

/-- `process_csv` on one file. A missing header or missing required columns
skips the file (normal return); an unreadable file raises — `process_csv`
contains no exception handler, so this is modelled as `Except.error`. -/
def process_csv (f : SourceFile) (st : ETLState) : Except Unit ETLState :=
  match f with
  | .unreadable => .error ()
  | .readable none _ => .ok st
  | .readable (some raw_headers) rows =>
    if requiredMissing raw_headers then .ok st
    else .ok (rows.foldl (process_row (resolveCols raw_headers)) st)

/-- The file loop of `main()` in `load_pitches.py`: `process_csv` on each
file in turn, with no `try`/`except` — the first raising file aborts the
whole loop. -/
def ingestionRun (files : List SourceFile) (st : ETLState) : Except Unit ETLState :=
  files.foldlM (fun s f => process_csv f s) st

/-- `main()` end to end: `conn.commit()` runs only if the loop finishes, so
an aborted run leaves the store as it was before the run (the uncommitted
transaction is rolled back when the process dies). -/
def etl_main (files : List SourceFile) (st : ETLState) : ETLState :=
  match ingestionRun files st with
  | .ok final => final
  | .error _ => st

/-! ## Aggregate queries (`api/main.py`)

The serving surface reads a `List Pitch` (the committed `pitches` table, in
insertion order). SQL predicates become `Bool`-valued filters. -/

/-- `description LIKE 'swinging_strike%'`. -/
def isWhiff (p : Pitch) : Bool :=
  startsWithStr "swinging_strike" p.description

/-- `outcome IN ('home_run', 'double', 'triple')` (`NULL` never matches). -/
def isHardHit (p : Pitch) : Bool :=
  p.outcome == some "home_run" || p.outcome == some "double" ||
    p.outcome == some "triple"

/-- The optional `AND batter_hand = ?` clause: present only when a hand
filter is being applied. -/
def handMatches (p : Pitch) (hand : Option String) : Bool :=
  match hand with
  | none => true
  | some h => p.batter_hand == some h

/-- The `WHERE` clause of the recommendation queries: pitcher, balls,
strikes, non-null pitch type, and an optional batter hand. -/
def situationFilter (pid balls strikes : Int) (hand : Option String) (p : Pitch) :
    Bool :=
  p.pitcher_id == pid && p.balls == some balls && p.strikes == some strikes &&
    p.pitch_type.isSome && handMatches p hand

/-- One row of the grouped aggregate result:
`pitch_type, COUNT(*), SUM(whiff), SUM(hard_hit)`. -/
structure AggRow where
  pitch_type : String
  total : Nat
  whiffs : Nat
  hard_hits : Nat
deriving DecidableEq, Repr

/-- The distinct non-null pitch types of a filtered row set. `GROUP BY`
output order is implementation-defined but deterministic for a given store
state; it is modelled as first-occurrence order. -/
def distinctTypes (ps : List Pitch) : List String :=
  ps.foldl (fun acc p =>
    match p.pitch_type with
    | some t => if acc.contains t then acc else acc ++ [t]
    | none => acc) []

/-- The aggregate row of one `GROUP BY pitch_type` group. -/
def aggForType (ps : List Pitch) (t : String) : AggRow where
  pitch_type := t
  total := (ps.filter (fun p => p.pitch_type == some t)).length
  whiffs := ((ps.filter (fun p => p.pitch_type == some t)).filter isWhiff).length
  hard_hits := ((ps.filter (fun p => p.pitch_type == some t)).filter isHardHit).length

/-- The grouped aggregate query of `recommend_pitch`, including the
`HAVING total >= 5` minimum-sample floor. `hand = none` is the pooled-hand
variant (the batter-hand equality filter omitted); both variants share this
one definition, hence the same floor. -/
def aggQuery (db : List Pitch) (pid balls strikes : Int) (hand : Option String) :
    List AggRow :=
  let filtered := db.filter (situationFilter pid balls strikes hand)
  ((distinctTypes filtered).map (aggForType filtered)).filter
    (fun r => decide (5 ≤ r.total))

/-! ## Recommendation scorer (`recommend_pitch`) -/

/-- `whiff_pct = whiffs / total if total else 0.0`. -/
def whiffRate (r : AggRow) : ℚ :=
  if r.total = 0 then 0 else (r.whiffs : ℚ) / (r.total : ℚ)

/-- `hard_hit_pct = hard_hits / total if total else 0.0`. -/
def hardHitRate (r : AggRow) : ℚ :=
  if r.total = 0 then 0 else (r.hard_hits : ℚ) / (r.total : ℚ)

/-- `score = whiff_pct - hard_hit_pct`. -/
def scoreOf (r : AggRow) : ℚ :=
  whiffRate r - hardHitRate r

/-- The `best_pitch` tuple `(pitch_type, total, whiff_pct, hard_hit_pct)`
tracked by the selection loop. -/
structure BestPick where
  pitch_type : String
  total : Nat
  whiff_pct : ℚ
  hard_hit_pct : ℚ
deriving DecidableEq, Repr

/-- The tuple the loop stores when a candidate becomes the current best. -/
def mkPick (r : AggRow) : BestPick :=
  ⟨r.pitch_type, r.total, whiffRate r, hardHitRate r⟩

/-- One iteration of the selection loop: `if score > best_score` (strict),
so on a tie the earlier candidate is kept. -/
def stepBest (acc : Option BestPick × ℚ) (r : AggRow) : Option BestPick × ℚ :=
  if acc.2 < scoreOf r then (some (mkPick r), scoreOf r) else acc

/-- The whole selection loop, starting from
`best_pitch = None; best_score = -999.0`. -/
def selectBest (rows : List AggRow) : Option BestPick × ℚ :=
  rows.foldl stepBest (none, -999)

/-- The `historical_outcomes` object of the response. -/
structure HistoricalOutcomes where
  sample_size : Nat
  whiff_pct : ℚ
  in_play_hard_hit_pct : ℚ
deriving DecidableEq, Repr

/-- The recommendation response body. -/
structure Recommendation where
  recommended_pitch_type : String
  confidence : ℚ
  rationale : List String
  historical_outcomes : HistoricalOutcomes
deriving DecidableEq, Repr

/-- Python `f"{q:.0%}"` on the exact rational value: scale by 100 and round
to the nearest integer, halves to even. -/
def pctString (q : ℚ) : String :=
  let scaled := q * 100
  let fl : Int := scaled.floor
  let frac : ℚ := scaled - (fl : ℚ)
  let rounded : Int :=
    if frac < 1/2 then fl
    else if 1/2 < frac then fl + 1
    else if fl % 2 = 0 then fl else fl + 1
  toString rounded ++ "%"

/-- The rationale f-string of the data-backed response. -/
def rationaleLine (t : String) (w h : ℚ) : String :=
  t ++ " has a whiff rate of " ++ pctString w ++
    " and hard-hit in-play rate of " ++ pctString h ++ " in similar situations."

/-- The low-confidence default returned when no fallback stage had data. -/
def defaultRecommendation : Recommendation where
  recommended_pitch_type := "FF"
  confidence := 1/2
  rationale :=
    ["Insufficient historical data for this situation; defaulting to four-seam fastball."]
  historical_outcomes := { sample_size := 0, whiff_pct := 0, in_play_hard_hit_pct := 0 }

/-- The scoring tail of `recommend_pitch`, applied to whichever row set the
cascade settled on. The `(none, _)` arm is unreachable for rows coming from
`aggQuery` (every score then lies in `[-1, 1]`, which beats `-999`); in the
source that arm would be a `TypeError` on tuple unpacking. -/
def recommendFromRows (rows : List AggRow) : Recommendation :=
  if rows.isEmpty then defaultRecommendation
  else
    match selectBest rows with
    | (some b, best_score) =>
      { recommended_pitch_type := b.pitch_type
        confidence := min (19/20) (max (11/20) (best_score + 1/2))
        rationale := [rationaleLine b.pitch_type b.whiff_pct b.hard_hit_pct]
        historical_outcomes :=
          { sample_size := b.total
            whiff_pct := b.whiff_pct
            in_play_hard_hit_pct := b.hard_hit_pct } }
    | (none, _) => defaultRecommendation

/-- `recommend_pitch`, instrumented with the list of aggregate queries it
issues (`some hand` = exact-hand query, `none` = pooled-hand query), in
order: exact-hand first, and the pooled re-query only when the first result
set is empty. -/
def recommend_pitch_run (db : List Pitch) (pid balls strikes : Int)
    (batter_hand : String) : Recommendation × List (Option String) :=
  let rows := aggQuery db pid balls strikes (some batter_hand)
  if rows.isEmpty then
    let pooled := aggQuery db pid balls strikes none
    (recommendFromRows pooled, [some batter_hand, none])
  else
    (recommendFromRows rows, [some batter_hand])

/-- The `POST /api/recommendation` handler. -/
def recommend_pitch (db : List Pitch) (pid balls strikes : Int)
    (batter_hand : String) : Recommendation :=
  (recommend_pitch_run db pid balls strikes batter_hand).1

/-! ## Usage breakdown (`pitcher_usage`) -/

/-- `if batter_hand in ("L", "R")`: the hand filter actually applied by
`pitcher_usage` and `pitcher_pitches`; any other value leaves the clause out. -/
def effectiveHand (batter_hand : Option String) : Option String :=
  if batter_hand == some "L" || batter_hand == some "R" then batter_hand
  else none

/-- One row of the usage aggregate
(`balls, strikes, pitch_type, total, whiffs, hard_hits`). -/
structure UsageRow where
  balls : Int
  strikes : Int
  pitch_type : String
  total : Nat
  whiffs : Nat
  hard_hits : Nat
deriving DecidableEq, Repr

/-- The `WHERE` clause of the usage query: pitcher plus non-null balls,
strikes and pitch type, with the optional hand clause. -/
def usageFilter (pid : Int) (hand : Option String) (p : Pitch) : Bool :=
  p.pitcher_id == pid && p.balls.isSome && p.strikes.isSome &&
    p.pitch_type.isSome && handMatches p hand

/-- The distinct `(balls, strikes, pitch_type)` group keys, in
first-occurrence order (sorted afterwards for `ORDER BY`). -/
def usageKeys (ps : List Pitch) : List (Int × Int × String) :=
  ps.foldl (fun acc p =>
    match p.balls, p.strikes, p.pitch_type with
    | some b, some s, some t =>
      if acc.contains (b, s, t) then acc else acc ++ [(b, s, t)]
    | _, _, _ => acc) []

/-- `ORDER BY balls, strikes, pitch_type` comparison (ascending,
lexicographic). -/
def usageKeyLE (a b : Int × Int × String) : Bool :=
  a.1 < b.1 || (a.1 == b.1 && (a.2.1 < b.2.1 ||
    (a.2.1 == b.2.1 && decide (a.2.2 ≤ b.2.2))))

/-- Insertion into a list sorted by `le`. -/
def insertLE {α : Type} (le : α → α → Bool) (x : α) : List α → List α
  | [] => [x]
  | y :: ys => if le x y then x :: y :: ys else y :: insertLE le x ys

/-- Insertion sort by `le` (the group keys are distinct, so any stable sort
matches the SQL `ORDER BY`). -/
def sortLE {α : Type} (le : α → α → Bool) : List α → List α
  | [] => []
  | x :: xs => insertLE le x (sortLE le xs)

/-- The grouped usage query of `pitcher_usage`: one aggregate row per
distinct `(balls, strikes, pitch_type)` key, ordered ascending, with no
minimum-sample floor. -/
def usage_query (db : List Pitch) (pid : Int) (hand : Option String) :
    List UsageRow :=
  let ps := db.filter (usageFilter pid hand)
  (sortLE usageKeyLE (usageKeys ps)).map (fun k =>
    let g := ps.filter (fun p =>
      p.balls == some k.1 && p.strikes == some k.2.1 && p.pitch_type == some k.2.2)
    { balls := k.1, strikes := k.2.1, pitch_type := k.2.2,
      total := g.length,
      whiffs := (g.filter isWhiff).length,
      hard_hits := (g.filter isHardHit).length })

/-- One per-pitch-type entry of the usage response. -/
structure UsageEntry where
  pitch_type : String
  total : Nat
  whiff_pct : ℚ
  hard_hit_pct : ℚ
deriving DecidableEq, Repr

/-- `usage_by_count[count_key].append(...)` with dict insertion-order
semantics: extend an existing key's list in place, or append a new key. -/
def addToKey (m : List (String × List UsageEntry)) (k : String) (e : UsageEntry) :
    List (String × List UsageEntry) :=
  match m with
  | [] => [(k, [e])]
  | (k', es) :: rest =>
    if k' == k then (k', es ++ [e]) :: rest else (k', es) :: addToKey rest k e

/-- The usage response body. -/
structure UsageResponse where
  pitcher_id : Int
  usage_by_count : List (String × List UsageEntry)
deriving DecidableEq, Repr

/-- The `GET /api/pitchers/{pitcher_id}/usage` handler: run the grouped
query (hand filter only for a literal `"L"`/`"R"`), then fold the rows into
the `"{balls}-{strikes}"`-keyed mapping, computing the rates per row. -/
def pitcher_usage (db : List Pitch) (pid : Int) (batter_hand : Option String) :
    UsageResponse :=
  let rows := usage_query db pid (effectiveHand batter_hand)
  { pitcher_id := pid
    usage_by_count :=
      rows.foldl (fun ubc r =>
        let count_key := toString r.balls ++ "-" ++ toString r.strikes
        addToKey ubc count_key
          { pitch_type := r.pitch_type
            total := r.total
            whiff_pct := if r.total = 0 then 0 else (r.whiffs : ℚ) / (r.total : ℚ)
            hard_hit_pct := if r.total = 0 then 0 else (r.hard_hits : ℚ) / (r.total : ℚ) })
        [] }

/-! ## Pitch-location summary (`pitcher_pitches`) -/

/-- The location query of `pitcher_pitches` (capability 2): pitcher,
situation, non-null plate coordinates, optional hand filter, `LIMIT`. -/
def loc_query (db : List Pitch) (pid balls strikes : Int) (hand : Option String)
    (lim : Nat) : List Pitch :=
  (db.filter (fun p =>
    p.pitcher_id == pid && p.balls == some balls && p.strikes == some strikes &&
      p.plate_x.isSome && p.plate_z.isSome && handMatches p hand)).take lim

/-- One element of the `pitches` array of the location response. -/
structure PitchOut where
  plate_x : Option ℚ
  plate_z : Option ℚ
  pitch_type : Option String
  description : String
  outcome : Option String
deriving DecidableEq, Repr

/-- The location-summary response body (the `batter_hand` field echoes the
raw query parameter). -/
structure PitchesResponse where
  pitcher_id : Int
  balls : Int
  strikes : Int
  batter_hand : Option String
  avg_sz_top : Option ℚ
  avg_sz_bot : Option ℚ
  pitches : List PitchOut
deriving DecidableEq, Repr

/-- The `GET /api/pitchers/{pitcher_id}/pitches` handler: fetch the capped
located rows, accumulate the non-null strike-zone bounds exactly as the
source loop does, and average each list only when it is non-empty. -/
def pitcher_pitches (db : List Pitch) (pid balls strikes : Int)
    (batter_hand : Option String) (lim : Nat) : PitchesResponse :=
  let rows := loc_query db pid balls strikes (effectiveHand batter_hand) lim
  let sz_tops := rows.foldl (fun acc p =>
    match p.sz_top with
    | some v => acc ++ [v]
    | none => acc) ([] : List ℚ)
  let sz_bots := rows.foldl (fun acc p =>
    match p.sz_bot with
    | some v => acc ++ [v]
    | none => acc) ([] : List ℚ)
  { pitcher_id := pid
    balls := balls
    strikes := strikes
    batter_hand := batter_hand
    avg_sz_top := if sz_tops.isEmpty then none
      else some (sz_tops.sum / (sz_tops.length : ℚ))
    avg_sz_bot := if sz_bots.isEmpty then none
      else some (sz_bots.sum / (sz_bots.length : ℚ))
    pitches := rows.map (fun p =>
      { plate_x := p.plate_x
        plate_z := p.plate_z
        pitch_type := p.pitch_type
        description := p.description
        outcome := p.outcome }) }

/-! ## Request-boundary validation of `pitcher_pitches`

The endpoint declares
`balls: int = Query(..., ge0=0, le=3)`, `strikes: int = Query(..., ge0=0, le=2)`,
`limit: int = Query(500, ge=1, le=2000)`.
`ge0` is not a recognized constraint keyword — FastAPI/pydantic accept it as
schema-extra and never enforce it — so only the `le` bounds are validated
for `balls` and `strikes`, while `limit` has both bounds and defaults to 500
when omitted. -/

/-- The validation the code actually performs at the request boundary. -/
def pitchesParamsAccepted (balls strikes lim : Int) : Bool :=
  decide (balls ≤ 3) && decide (strikes ≤ 2) && decide (1 ≤ lim) && decide (lim ≤ 2000)

/-- Modelled from the spec: the validation the spec describes for the same
endpoint — balls in [0, 3], strikes in [0, 2], limit in [1, 2000]. -/
def pitchesParamsClaimed (balls strikes lim : Int) : Bool :=
  decide (0 ≤ balls) && decide (balls ≤ 3) && decide (0 ≤ strikes) &&
    decide (strikes ≤ 2) && decide (1 ≤ lim) && decide (lim ≤ 2000)

/-- `limit: int = Query(500, ...)` — the default applied when the query
parameter is omitted. -/
def effectiveLimit (lim : Option Int) : Int :=
  match lim with
  | some l => l
  | none => 500

/-! ## Concrete fixtures used by the witnesses and counterexamples -/

/-- The aggregate rows of the spec's end-to-end example:
SL = 8 total / 5 whiffs / 1 hard-hit, FF = 6 total / 1 whiff / 2 hard-hits. -/
def rowsEx : List AggRow :=
  [⟨"SL", 8, 5, 1⟩, ⟨"FF", 6, 1, 2⟩]

/-- Five identical qualifying pitches for pitcher 1 at balls=1/strikes=2
against a right-handed batter: enough to clear the floor of 5. -/
def dbR : List Pitch :=
  List.replicate 5
    { pitcher_id := 1, game_date := none, inning := none, top_bottom := none,
      batter_hand := some "R", balls := some 1, strikes := some 2,
      pitch_type := some "SL", velocity := none, plate_x := none, plate_z := none,
      sz_top := none, sz_bot := none, description := "swinging_strike",
      outcome := none, runs_value := none }

/-- Column table for a minimal header carrying the two required columns plus
the pitcher name. -/
def cols9 : Cols :=
  resolveCols ["pitcher", "pitch_type", "player_name"]

/-- A source row whose pitcher id parses but whose pitch type is blank. -/
def row9 : Row :=
  [("pitcher", some "660271"), ("pitch_type", some ""), ("player_name", some "Doe, Jane")]

/-- A well-formed one-row source file. -/
def file_good : SourceFile :=
  .readable (some ["pitcher", "pitch_type"]) [[("pitcher", some "1"), ("pitch_type", some "FF")]]

/-! # Theorems -/

/-! ## Pitcher registry (claim C5) -/

/-- `find?` skips a list in which nothing matches. -/
theorem find?_append_of_none {α : Type} (p : α → Bool) (l₁ l₂ : List α)
    (h : l₁.find? p = none) : (l₁ ++ l₂).find? p = l₂.find? p := by
  induction l₁ with
  | nil => rfl
  | cons a as ih =>
    by_cases hpa : p a = true
    · rw [List.find?_cons_of_pos as hpa] at h
      exact absurd h (by simp)
    · rw [List.find?_cons_of_neg as hpa] at h
      rw [List.cons_append, List.find?_cons_of_neg _ hpa]
      exact ih h

/-- No two registry records share an external id. -/
def uniqueByMlb (ps : List PitcherRec) : Prop :=
  ps.Pairwise (fun a b => a.mlb_id ≠ b.mlb_id)

/-- Replaying a sequence of registry calls (the per-row invocations of one
ingestion run). -/
def runCalls (st : ETLState) (calls : List (Int × String × String)) : ETLState :=
  calls.foldl (fun s c => (get_or_create_pitcher s c.1 c.2.1 c.2.2).1) st

/-- `get_or_create_pitcher` never touches the `pitches` table. -/
theorem get_or_create_pitches (st : ETLState) (m : Int) (n h : String) :
    (get_or_create_pitcher st m n h).1.pitches = st.pitches := by
  unfold get_or_create_pitcher
  cases st.pitchers.find? (fun p => p.mlb_id == m) <;> rfl

/-- The id handed out by `get_or_create_pitcher` belongs to a record of the
resulting registry. -/
theorem get_or_create_id_mem (st : ETLState) (m : Int) (n h : String) :
    ∃ q ∈ (get_or_create_pitcher st m n h).1.pitchers,
      q.id = (get_or_create_pitcher st m n h).2 := by
  unfold get_or_create_pitcher
  cases hf : st.pitchers.find? (fun p => p.mlb_id == m) with
  | some p =>
    exact ⟨p, List.mem_of_find?_eq_some hf, rfl⟩
  | none =>
    exact ⟨⟨st.nextPitcherId, m, n, h⟩, by simp, rfl⟩

/-- A single registry call preserves uniqueness of external ids. -/
theorem get_or_create_preserves_unique (st : ETLState) (m : Int) (n h : String)
    (hu : uniqueByMlb st.pitchers) :
    uniqueByMlb (get_or_create_pitcher st m n h).1.pitchers := by
  unfold get_or_create_pitcher
  cases hf : st.pitchers.find? (fun p => p.mlb_id == m) with
  | some p => exact hu
  | none =>
    show uniqueByMlb (st.pitchers ++ [⟨st.nextPitcherId, m, n, h⟩])
    rw [uniqueByMlb, List.pairwise_append]
    refine ⟨hu, List.pairwise_singleton _ _, ?_⟩
    intro a ha b hb
    rw [List.mem_singleton] at hb
    subst hb
    have := List.find?_eq_none.mp hf a ha
    simpa using this

/-- A single registry call never removes a record. -/
theorem get_or_create_mem_mono (st : ETLState) (m : Int) (n h : String)
    (p : PitcherRec) (hp : p ∈ st.pitchers) :
    p ∈ (get_or_create_pitcher st m n h).1.pitchers := by
  unfold get_or_create_pitcher
  cases st.pitchers.find? (fun q => q.mlb_id == m) with
  | some q => exact hp
  | none => exact List.mem_append_left _ hp

/-- Uniqueness of external ids over a whole sequence of registry calls. -/
theorem runCalls_preserves_unique (st : ETLState)
    (calls : List (Int × String × String)) (hu : uniqueByMlb st.pitchers) :
    uniqueByMlb (runCalls st calls).pitchers := by
  induction calls generalizing st with
  | nil => exact hu
  | cons c cs ih =>
    exact ih _ (get_or_create_preserves_unique st c.1 c.2.1 c.2.2 hu)

/-- No sequence of registry calls ever removes a record. -/
theorem runCalls_mem_mono (st : ETLState) (calls : List (Int × String × String))
    (p : PitcherRec) (hp : p ∈ st.pitchers) : p ∈ (runCalls st calls).pitchers := by
  induction calls generalizing st with
  | nil => exact hp
  | cons c cs ih =>
    exact ih _ (get_or_create_mem_mono st c.1 c.2.1 c.2.2 p hp)

/-- In a registry with unique external ids, the lookup by external id finds
exactly the record carrying that id. -/
theorem find?_of_unique {m : Int} (ps : List PitcherRec) (hu : uniqueByMlb ps)
    (p : PitcherRec) (hp : p ∈ ps) (hm : p.mlb_id = m) :
    ps.find? (fun q => q.mlb_id == m) = some p := by
  induction ps with
  | nil => exact absurd hp (List.not_mem_nil p)
  | cons a as ih =>
    rw [uniqueByMlb, List.pairwise_cons] at hu
    by_cases ha : a.mlb_id = m
    · rw [List.find?_cons_of_pos as (by simpa using ha)]
      rcases List.mem_cons.mp hp with rfl | hp'
      · rfl
      · have hne := hu.1 p hp'
        rw [ha, hm] at hne
        exact absurd rfl hne
    · rw [List.find?_cons_of_neg as (by simpa using ha)]
      rcases List.mem_cons.mp hp with rfl | hp'
      · exact absurd hm ha
      · exact ih hu.2 hp'

/-- Against a registry with unique external ids, a call whose external id is
already present returns the existing record's internal id and leaves the
state unchanged, whatever candidate name/hand it carries. -/
theorem get_or_create_found (st : ETLState) (m : Int) (n h : String)
    (p : PitcherRec) (hu : uniqueByMlb st.pitchers) (hp : p ∈ st.pitchers)
    (hm : p.mlb_id = m) : get_or_create_pitcher st m n h = (st, p.id) := by
  unfold get_or_create_pitcher
  rw [find?_of_unique st.pitchers hu p hp hm]

/-- The id a registry call returns is the id of a record with that external
id in the resulting registry (the looked-up record, or the one created). -/
theorem get_or_create_found_rec (st : ETLState) (m : Int) (n h : String) :
    ∃ q, q ∈ (get_or_create_pitcher st m n h).1.pitchers ∧ q.mlb_id = m ∧
      q.id = (get_or_create_pitcher st m n h).2 := by
  unfold get_or_create_pitcher
  cases hf : st.pitchers.find? (fun p => p.mlb_id == m) with
  | some p =>
    refine ⟨p, List.mem_of_find?_eq_some hf, ?_, rfl⟩
    have hbeq := @List.find?_some _ (fun q => q.mlb_id == m) p st.pitchers hf
    exact eq_of_beq hbeq
  | none =>
    exact ⟨⟨st.nextPitcherId, m, n, h⟩, by simp, rfl, rfl⟩

/-- Claim C5: the pitcher registry resolve operation is idempotent by
external id, over whole call sequences. (1) A call with an unseen external
id appends exactly one record carrying the candidate name/hand and returns
the fresh internal id; (2) a call whose external id is already registered
returns that record's internal id with the state unchanged, ignoring the
candidate name/hand; (3) after a first call resolves an external id, *every
later* call with the same id — with any number of intervening calls for
other rows in between, and any candidate name/hand — returns the same
internal id the first call returned, with the state unchanged; (4) an
immediate repeat call returns the same state and id even without the
uniqueness invariant; (5) any sequence of calls preserves
at-most-one-record-per-external-id; (6) records are never removed by later
calls. -/
theorem pitcher_registry_idempotent :
    (∀ (st : ETLState) (m : Int) (n h : String),
      (∀ p ∈ st.pitchers, p.mlb_id ≠ m) →
      (get_or_create_pitcher st m n h).1.pitchers =
          st.pitchers ++ [⟨st.nextPitcherId, m, n, h⟩] ∧
        (get_or_create_pitcher st m n h).2 = st.nextPitcherId) ∧
    (∀ (st : ETLState) (m : Int) (n h : String) (p : PitcherRec),
      uniqueByMlb st.pitchers → p ∈ st.pitchers → p.mlb_id = m →
      get_or_create_pitcher st m n h = (st, p.id)) ∧
    (∀ (st : ETLState) (m : Int) (n h : String)
        (calls : List (Int × String × String)) (n' h' : String),
      uniqueByMlb st.pitchers →
      get_or_create_pitcher
          (runCalls (get_or_create_pitcher st m n h).1 calls) m n' h' =
        (runCalls (get_or_create_pitcher st m n h).1 calls,
          (get_or_create_pitcher st m n h).2)) ∧
    (∀ (st : ETLState) (m : Int) (n h n' h' : String),
      get_or_create_pitcher (get_or_create_pitcher st m n h).1 m n' h' =
        ((get_or_create_pitcher st m n h).1, (get_or_create_pitcher st m n h).2)) ∧
    (∀ (st : ETLState) (calls : List (Int × String × String)),
      uniqueByMlb st.pitchers → uniqueByMlb (runCalls st calls).pitchers) ∧
    (∀ (st : ETLState) (calls : List (Int × String × String)) (p : PitcherRec),
      p ∈ st.pitchers → p ∈ (runCalls st calls).pitchers) := by
  refine ⟨?g1, ?g2, ?g3, ?g4, ?g5, ?g6⟩
  case g1 =>
    intro st m n h hnew
    have hf : st.pitchers.find? (fun p => p.mlb_id == m) = none := by
      rw [List.find?_eq_none]
      intro p hp
      simpa using hnew p hp
    constructor
    · show (get_or_create_pitcher st m n h).1.pitchers = _
      unfold get_or_create_pitcher
      rw [hf]
    · show (get_or_create_pitcher st m n h).2 = _
      unfold get_or_create_pitcher
      rw [hf]
  case g2 =>
    intro st m n h p hu hp hm
    exact get_or_create_found st m n h p hu hp hm
  case g3 =>
    intro st m n h calls n' h' hu
    obtain ⟨q, hqmem, hqm, hqid⟩ := get_or_create_found_rec st m n h
    have hu1 : uniqueByMlb (get_or_create_pitcher st m n h).1.pitchers :=
      get_or_create_preserves_unique st m n h hu
    have hu2 := runCalls_preserves_unique (get_or_create_pitcher st m n h).1 calls hu1
    have hmem2 := runCalls_mem_mono (get_or_create_pitcher st m n h).1 calls q hqmem
    rw [get_or_create_found _ m n' h' q hu2 hmem2 hqm, hqid]
  case g4 =>
    intro st m n h n' h'
    unfold get_or_create_pitcher
    cases hf : st.pitchers.find? (fun p => p.mlb_id == m) with
    | some p => simp [hf]
    | none =>
      simp only [hf]
      rw [find?_append_of_none _ _ _ hf]
      simp [List.find?]
  case g5 =>
    intro st calls hu
    exact runCalls_preserves_unique st calls hu
  case g6 =>
    intro st calls p hp
    exact runCalls_mem_mono st calls p hp

/-- Witness for C5 at a concrete registry state: the first call with the
unseen id 660271 creates exactly the one record (with the candidate
name/hand) and returns id 1; after an intervening call that registers a
different pitcher, a later call for 660271 with a different candidate
name/hand still returns id 1 and changes nothing. -/
theorem pitcher_registry_idempotent_witness :
    (get_or_create_pitcher emptyState 660271 "Doe, Jane" "R").1.pitchers =
        [⟨1, 660271, "Doe, Jane", "R"⟩] ∧
      get_or_create_pitcher
          (runCalls (get_or_create_pitcher emptyState 660271 "Doe, Jane" "R").1
            [(543037, "Roe, Richard", "L")]) 660271 "Other Name" "L" =
        (runCalls (get_or_create_pitcher emptyState 660271 "Doe, Jane" "R").1
          [(543037, "Roe, Richard", "L")], 1) := by
  have hmain := pitcher_registry_idempotent
  have hnew : ∀ p ∈ emptyState.pitchers, p.mlb_id ≠ 660271 := by
    intro p hp
    exact absurd hp (List.not_mem_nil p)
  have hu : uniqueByMlb emptyState.pitchers := List.Pairwise.nil
  have h1 := hmain.1 emptyState 660271 "Doe, Jane" "R" hnew
  constructor
  · rw [h1.1]
    rfl
  · have h3 := hmain.2.2.1 emptyState 660271 "Doe, Jane" "R"
      [(543037, "Roe, Richard", "L")] "Other Name" "L" hu
    rw [h3, h1.2]
    rfl

/-! ## Row-level rejection (claims C4 and C9) -/

/-- If the Python truthiness filter lets a value through, the value was a
non-empty string. -/
theorem pyOrNone_eq_some {v : Option String} {s : String} (h : pyOrNone v = some s) :
    v = some s ∧ s ≠ "" := by
  cases v with
  | none => exact absurd h (by simp [pyOrNone])
  | some a =>
    by_cases ha : a = ""
    · subst ha
      simp [pyOrNone] at h
    · have hv : pyOrNone (some a) = some a := by simp [pyOrNone, ha]
      rw [hv] at h
      cases h
      exact ⟨rfl, ha⟩

/-- Claim C4: a source row whose pitcher-identity value is absent or blank,
or fails integer parsing, or whose pitch-type value is blank, inserts no
`PitchEvent`; and every event present after the row was processed either
predates the row or carries a non-blank pitch type. -/
theorem row_rejection_spec (cols : Cols) (st : ETLState) (row : Row) :
    ((pyOrNone (rowGet row cols.pitcher_col) = none ∨
      to_int (rowGet row cols.pitcher_col) = none ∨
      pyOrNone (rowGet row cols.pitch_type_col) = none) →
      (process_row cols st row).pitches = st.pitches) ∧
    (∀ p ∈ (process_row cols st row).pitches,
      p ∈ st.pitches ∨ ∃ t, p.pitch_type = some t ∧ t ≠ "") := by
  cases h1 : pyOrNone (rowGet row cols.pitcher_col) with
  | none =>
    have hval : process_row cols st row = st := by
      unfold process_row
      rw [h1]
    rw [hval]
    exact ⟨fun _ => rfl, fun p hp => Or.inl hp⟩
  | some praw =>
    obtain ⟨hr1, hne1⟩ := pyOrNone_eq_some h1
    cases h2 : parseInt praw with
    | none =>
      have hval : process_row cols st row = st := by
        simp only [process_row, h1, h2]
      rw [hval]
      exact ⟨fun _ => rfl, fun p hp => Or.inl hp⟩
    | some mid =>
      have hti : to_int (rowGet row cols.pitcher_col) = some mid := by
        rw [hr1]
        simpa [to_int] using h2
      cases h3 : pyOrNone (rowGet row cols.pitch_type_col) with
      | none =>
        have hval : (process_row cols st row).pitches = st.pitches := by
          simp only [process_row, h1, h2, h3]
          exact get_or_create_pitches st mid _ _
        rw [hval]
        exact ⟨fun _ => rfl, fun p hp => Or.inl hp⟩
      | some pt =>
        obtain ⟨hr3, hne3⟩ := pyOrNone_eq_some h3
        simp only [process_row, h1, h2, h3]
        rw [get_or_create_pitches]
        constructor
        · intro hc
          rcases hc with hc | hc | hc
          · exact absurd hc (by simp)
          · rw [hti] at hc
            exact absurd hc (by simp)
          · exact absurd hc (by simp)
        · intro p hp
          rcases List.mem_append.mp hp with hp | hp
          · exact Or.inl hp
          · rw [List.mem_singleton] at hp
            subst hp
            exact Or.inr ⟨pt, rfl, hne3⟩

/-- Witness for C4: the concrete row with a parseable pitcher id but a blank
pitch type inserts no event. -/
theorem row_rejection_spec_witness :
    (process_row cols9 emptyState row9).pitches = emptyState.pitches :=
  (row_rejection_spec cols9 emptyState row9).1 (Or.inr (Or.inr (by decide)))

/-- Claim C9: on a row whose pitcher id parses to a previously unseen
integer but whose pitch type is blank, ingestion first creates the pitcher
record (name from the row, hand defaulted) and then skips the row, leaving a
registry entry with zero pitch events. -/
theorem pitcher_created_before_type_check :
    (process_row cols9 emptyState row9).pitchers = [⟨1, 660271, "Doe, Jane", ""⟩] ∧
      (process_row cols9 emptyState row9).pitches = [] := by
  decide

/-! ## File-level error handling (claim C7) -/

/-- The files `process_csv` skips with a log line and a normal return:
no header at all, or required columns missing. -/
def fileSkipped (f : SourceFile) : Bool :=
  match f with
  | .unreadable => false
  | .readable none _ => true
  | .readable (some raw_headers) _ => requiredMissing raw_headers

/-- `process_csv` returns normally on every file that does not raise. -/
theorem process_csv_ok (f : SourceFile) (st : ETLState) (h : f ≠ SourceFile.unreadable) :
    ∃ st', process_csv f st = Except.ok st' := by
  cases f with
  | unreadable => exact absurd rfl h
  | readable fieldnames rows =>
    cases fieldnames with
    | none => exact ⟨st, rfl⟩
    | some raw_headers =>
      by_cases hr : requiredMissing raw_headers = true
      · exact ⟨st, by simp [process_csv, hr]⟩
      · exact ⟨rows.foldl (process_row (resolveCols raw_headers)) st,
          by simp [process_csv, hr]⟩

/-- A run over raise-free files finishes normally. -/
theorem ingestionRun_ok (files : List SourceFile) (st : ETLState)
    (h : ∀ g ∈ files, g ≠ SourceFile.unreadable) :
    ∃ final, ingestionRun files st = Except.ok final := by
  induction files generalizing st with
  | nil => exact ⟨st, rfl⟩
  | cons f fs ih =>
    obtain ⟨st', hst'⟩ := process_csv_ok f st (h f (List.mem_cons_self f fs))
    obtain ⟨final, hfin⟩ := ih st' (fun g hg => h g (List.mem_cons_of_mem f hg))
    refine ⟨final, ?_⟩
    unfold ingestionRun at hfin ⊢
    rw [List.foldlM_cons, hst']
    exact hfin

/-- A skipped file leaves the state unchanged. -/
theorem process_csv_skipped (f : SourceFile) (st : ETLState) (hf : fileSkipped f = true) :
    process_csv f st = Except.ok st := by
  cases f with
  | unreadable => exact absurd hf (by simp [fileSkipped])
  | readable fieldnames rows =>
    cases fieldnames with
    | none => rfl
    | some raw_headers =>
      have hr : requiredMissing raw_headers = true := hf
      simp [process_csv, hr]

/-- Counterexample to C7 as stated: with a well-formed file followed by an
unreadable one, the run is aborted (the file loop raises), and because
`conn.commit()` is never reached the rows already ingested from the earlier
file are lost — the committed store still has no pitch events, while the
same run without the unreadable file commits one event. -/
theorem ingest_abort_counterexample :
    ingestionRun [file_good, SourceFile.unreadable] emptyState = Except.error () ∧
      etl_main [file_good, SourceFile.unreadable] emptyState = emptyState ∧
      (etl_main [file_good] emptyState).pitches ≠ [] := by
  refine ⟨rfl, by decide, by decide⟩

/-- C7 amended: only a file with no header row or with a required column
missing is skipped with the run continuing (such a file contributes nothing
and the remaining files are processed exactly as if it were absent); a run
whose files all decode completes and commits, but an unreadable file makes
`process_csv` raise with no handler in `main`, aborting the run. -/
theorem ingest_skip_and_completion :
    (∀ (f : SourceFile) (fs1 fs2 : List SourceFile) (st : ETLState),
      fileSkipped f = true →
      ingestionRun (fs1 ++ f :: fs2) st = ingestionRun (fs1 ++ fs2) st) ∧
    (∀ (files : List SourceFile) (st : ETLState),
      (∀ g ∈ files, g ≠ SourceFile.unreadable) →
      ingestionRun files st = Except.ok (etl_main files st)) := by
  constructor
  · intro f fs1 fs2 st hf
    induction fs1 generalizing st with
    | nil =>
      show ingestionRun (f :: fs2) st = ingestionRun fs2 st
      unfold ingestionRun
      rw [List.foldlM_cons, process_csv_skipped f st hf]
      rfl
    | cons g gs ih =>
      unfold ingestionRun
      rw [List.cons_append, List.foldlM_cons, List.cons_append, List.foldlM_cons]
      cases hg : process_csv g st with
      | error e => rfl
      | ok st' => exact ih st'
  · intro files st h
    obtain ⟨final, hfin⟩ := ingestionRun_ok files st h
    rw [hfin]
    unfold etl_main
    rw [hfin]

/-- Witness for the amended C7: a header-less file between two good files is
skipped and the run continues; and a raise-free run returns normally. -/
theorem ingest_skip_and_completion_witness :
    ingestionRun [file_good, SourceFile.readable none [], file_good] emptyState =
        ingestionRun [file_good, file_good] emptyState ∧
      ingestionRun [file_good] emptyState =
        Except.ok (etl_main [file_good] emptyState) := by
  constructor
  · exact ingest_skip_and_completion.1 (SourceFile.readable none [])
      [file_good] [file_good] emptyState (by decide)
  · exact ingest_skip_and_completion.2 [file_good] emptyState
      (by decide)

/-! ## Recommendation scorer (claims C1, C2, C3) -/

/-- Characterization of the selection loop from any accumulator: either no
candidate strictly beats the incoming score and the accumulator survives, or
the result is the first candidate attaining the running maximum — every
earlier candidate scores strictly less, every later one at most as much. -/
theorem foldl_stepBest_spec (rows : List AggRow) (b : Option BestPick) (s : ℚ) :
    (rows.foldl stepBest (b, s) = (b, s) ∧ ∀ r ∈ rows, scoreOf r ≤ s) ∨
    (∃ pre best post, rows = pre ++ best :: post ∧
      rows.foldl stepBest (b, s) = (some (mkPick best), scoreOf best) ∧
      s < scoreOf best ∧
      (∀ q ∈ pre, scoreOf q < scoreOf best) ∧
      (∀ q ∈ post, scoreOf q ≤ scoreOf best)) := by
  induction rows generalizing b s with
  | nil => exact Or.inl ⟨rfl, by simp⟩
  | cons r rs ih =>
    rw [List.foldl_cons]
    by_cases h : s < scoreOf r
    · have hstep : stepBest (b, s) r = (some (mkPick r), scoreOf r) := by
        simp [stepBest, h]
      rw [hstep]
      rcases ih (some (mkPick r)) (scoreOf r) with ⟨heq, hall⟩ |
        ⟨pre, best, post, hsplit, heq, hlt, hpre, hpost⟩
      · exact Or.inr ⟨[], r, rs, rfl, heq, h, by simp, hall⟩
      · refine Or.inr ⟨r :: pre, best, post, by rw [hsplit, List.cons_append], heq,
          lt_trans h hlt, ?_, hpost⟩
        intro q hq
        rcases List.mem_cons.mp hq with rfl | hq
        · exact hlt
        · exact hpre q hq
    · have hs : scoreOf r ≤ s := le_of_not_lt h
      have hstep : stepBest (b, s) r = (b, s) := by
        simp [stepBest, h]
      rw [hstep]
      rcases ih b s with ⟨heq, hall⟩ |
        ⟨pre, best, post, hsplit, heq, hlt, hpre, hpost⟩
      · refine Or.inl ⟨heq, ?_⟩
        intro q hq
        rcases List.mem_cons.mp hq with rfl | hq
        · exact hs
        · exact hall q hq
      · refine Or.inr ⟨r :: pre, best, post, by rw [hsplit, List.cons_append], heq, hlt,
          ?_, hpost⟩
        intro q hq
        rcases List.mem_cons.mp hq with rfl | hq
        · exact lt_of_le_of_lt hs hlt
        · exact hpre q hq

/-- Any aggregate row with hard-hit count bounded by its total scores above
the loop's `-999.0` sentinel, so the loop always picks a candidate. -/
theorem neg_sentinel_lt_scoreOf (r : AggRow) (h : r.hard_hits ≤ r.total) :
    (-999 : ℚ) < scoreOf r := by
  unfold scoreOf whiffRate hardHitRate
  by_cases ht : r.total = 0
  · rw [if_pos ht, if_pos ht]
    norm_num
  · rw [if_neg ht, if_neg ht]
    have htp : (0 : ℚ) < (r.total : ℚ) := by
      exact_mod_cast Nat.pos_of_ne_zero ht
    have hw : (0 : ℚ) ≤ (r.whiffs : ℚ) / (r.total : ℚ) := by positivity
    have hh : (r.hard_hits : ℚ) / (r.total : ℚ) ≤ 1 := by
      rw [div_le_one htp]
      exact_mod_cast h
    linarith

/-- The scoring tail on a non-empty row set whose hard-hit counts are
bounded by their totals: it returns the response built from the first
candidate attaining the maximal score. -/
theorem recommendFromRows_spec (rows : List AggRow) (hne : rows ≠ [])
    (hq : ∀ r ∈ rows, r.hard_hits ≤ r.total) :
    ∃ pre best post, rows = pre ++ best :: post ∧
      recommendFromRows rows =
        { recommended_pitch_type := best.pitch_type
          confidence := min (19/20) (max (11/20) (scoreOf best + 1/2))
          rationale := [rationaleLine best.pitch_type (whiffRate best) (hardHitRate best)]
          historical_outcomes :=
            { sample_size := best.total
              whiff_pct := whiffRate best
              in_play_hard_hit_pct := hardHitRate best } } ∧
      (∀ q ∈ pre, scoreOf q < scoreOf best) ∧
      (∀ q ∈ rows, scoreOf q ≤ scoreOf best) := by
  rcases foldl_stepBest_spec rows none (-999) with ⟨heq, hall⟩ |
    ⟨pre, best, post, hsplit, heq, hlt, hpre, hpost⟩
  · obtain ⟨r0, hr0⟩ := List.exists_mem_of_ne_nil rows hne
    have h1 : (-999 : ℚ) < scoreOf r0 := neg_sentinel_lt_scoreOf r0 (hq r0 hr0)
    exact absurd (hall r0 hr0) (not_le.mpr h1)
  · refine ⟨pre, best, post, hsplit, ?_, hpre, ?_⟩
    · have hnE : rows.isEmpty = false := by
        cases rows with
        | nil => exact absurd rfl hne
        | cons a l => rfl
      have hsel : selectBest rows = (some (mkPick best), scoreOf best) := heq
      rw [recommendFromRows, hnE, hsel]
      rfl
    · intro q hq'
      rw [hsplit] at hq'
      rcases List.mem_append.mp hq' with hq' | hq'
      · exact le_of_lt (hpre q hq')
      · rcases List.mem_cons.mp hq' with rfl | hq'
        · exact le_refl _
        · exact hpost q hq'

/-- Every row produced by the aggregate query clears the floor of 5 and has
whiff and hard-hit counts bounded by its total (they count sub-filters of
the same group). -/
theorem aggQuery_row_bounds (db : List Pitch) (pid balls strikes : Int)
    (hand : Option String) :
    ∀ r ∈ aggQuery db pid balls strikes hand,
      5 ≤ r.total ∧ r.whiffs ≤ r.total ∧ r.hard_hits ≤ r.total := by
  intro r hr
  unfold aggQuery at hr
  rw [List.mem_filter] at hr
  obtain ⟨hmem, hfloor⟩ := hr
  rw [List.mem_map] at hmem
  obtain ⟨t, ht, rfl⟩ := hmem
  refine ⟨of_decide_eq_true hfloor, ?_, ?_⟩
  · exact List.length_filter_le _ _
  · exact List.length_filter_le _ _

/-- The response built from a non-empty qualifying row set always has a
non-empty rationale and a clamped confidence. -/
theorem rec_response_props (rows : List AggRow) (hne : rows ≠ [])
    (hq : ∀ r ∈ rows, r.hard_hits ≤ r.total) :
    (recommendFromRows rows).rationale ≠ [] ∧
      11/20 ≤ (recommendFromRows rows).confidence ∧
      (recommendFromRows rows).confidence ≤ 19/20 := by
  obtain ⟨pre, best, post, hsplit, heq, hpre, hall⟩ := recommendFromRows_spec rows hne hq
  rw [heq]
  refine ⟨by simp, ?_, ?_⟩
  · exact le_min (by norm_num) (le_max_left _ _)
  · exact min_le_left _ _

/-- Claim C1: on any non-empty qualifying aggregate row set (positive totals,
counts bounded by totals), the scorer computes the per-candidate rates as
exact ratios, scores each candidate `whiff_rate - hard_hit_rate`, returns the
response built from the first candidate attaining the strictly greatest
score (earlier candidates score strictly less, so ties keep the first in
query order) with confidence `min(0.95, max(0.55, score + 0.5))`; and on the
spec's example rows SL=(8,5,1), FF=(6,1,2) it returns "SL" with confidence
0.95 and sample size 8. -/
theorem recommend_scoring_spec (rows : List AggRow) (hne : rows ≠ [])
    (hq : ∀ r ∈ rows, 0 < r.total ∧ r.whiffs ≤ r.total ∧ r.hard_hits ≤ r.total) :
    ((∀ r ∈ rows, whiffRate r = (r.whiffs : ℚ) / (r.total : ℚ) ∧
        hardHitRate r = (r.hard_hits : ℚ) / (r.total : ℚ) ∧
        scoreOf r = whiffRate r - hardHitRate r) ∧
      ∃ pre best post, rows = pre ++ best :: post ∧
        recommendFromRows rows =
          { recommended_pitch_type := best.pitch_type
            confidence := min (19/20) (max (11/20) (scoreOf best + 1/2))
            rationale := [rationaleLine best.pitch_type (whiffRate best) (hardHitRate best)]
            historical_outcomes :=
              { sample_size := best.total
                whiff_pct := whiffRate best
                in_play_hard_hit_pct := hardHitRate best } } ∧
        (∀ q ∈ pre, scoreOf q < scoreOf best) ∧
        (∀ q ∈ rows, scoreOf q ≤ scoreOf best)) ∧
    recommendFromRows rowsEx =
      { recommended_pitch_type := "SL"
        confidence := 19/20
        rationale :=
          ["SL has a whiff rate of 62% and hard-hit in-play rate of 12% in similar situations."]
        historical_outcomes :=
          { sample_size := 8, whiff_pct := 5/8, in_play_hard_hit_pct := 1/8 } } := by
  refine ⟨⟨?_, ?_⟩, ?_⟩
  · intro r hr
    have ht : r.total ≠ 0 := Nat.pos_iff_ne_zero.mp (hq r hr).1
    exact ⟨by rw [whiffRate, if_neg ht], by rw [hardHitRate, if_neg ht], rfl⟩
  · exact recommendFromRows_spec rows hne (fun r hr => (hq r hr).2.2)
  · with_unfolding_all rfl

/-- Witness for C1 at the spec's example rows. -/
theorem recommend_scoring_spec_witness :
    (recommendFromRows rowsEx).recommended_pitch_type = "SL" ∧
      (recommendFromRows rowsEx).confidence = 19/20 ∧
      (recommendFromRows rowsEx).historical_outcomes.sample_size = 8 := by
  have h := recommend_scoring_spec rowsEx (by decide) (by decide)
  rw [h.2]
  exact ⟨rfl, rfl, rfl⟩

/-- Claim C2: the cascade is linear. The issued-query trace is either
`[exact-hand, pooled]` or `[exact-hand]` (each stage at most once, no
retries, exact-hand always first), and the pooled-hand query — same
pitcher/balls/strikes, same floor, hand filter omitted — is issued exactly
when the exact-hand query returns no qualifying row. -/
theorem fallback_cascade_linear (db : List Pitch) (pid balls strikes : Int)
    (hand : String) :
    ((recommend_pitch_run db pid balls strikes hand).2 = [some hand, none] ∨
      (recommend_pitch_run db pid balls strikes hand).2 = [some hand]) ∧
    (none ∈ (recommend_pitch_run db pid balls strikes hand).2 ↔
      aggQuery db pid balls strikes (some hand) = []) ∧
    ((recommend_pitch_run db pid balls strikes hand).2 = [some hand, none] ↔
      aggQuery db pid balls strikes (some hand) = []) := by
  by_cases hex : aggQuery db pid balls strikes (some hand) = []
  · have ht : (recommend_pitch_run db pid balls strikes hand).2 = [some hand, none] := by
      simp [recommend_pitch_run, hex]
    rw [ht]
    refine ⟨Or.inl rfl, ?_, ?_⟩
    · exact ⟨fun _ => hex, fun _ => by simp⟩
    · exact ⟨fun _ => hex, fun _ => rfl⟩
  · have ht : (recommend_pitch_run db pid balls strikes hand).2 = [some hand] := by
      simp [recommend_pitch_run, hex]
    rw [ht]
    refine ⟨Or.inr rfl, ?_, ?_⟩
    · constructor
      · intro hmem
        rw [List.mem_singleton] at hmem
        exact absurd hmem.symm (Option.some_ne_none hand)
      · intro hc
        exact absurd hc hex
    · constructor
      · intro hc
        exact absurd hc (by simp)
      · intro hc
        exact absurd hc hex

/-- Claim C3: `recommend` is total. When both stages come back empty it
returns exactly the low-confidence default (pitch type "FF", confidence 0.5,
sample size 0, zero rates, the insufficient-data note); when any stage
yields qualifying rows, the rationale is non-empty and the confidence lies
in [0.55, 0.95]. -/
theorem recommend_total_spec (db : List Pitch) (pid balls strikes : Int)
    (hand : String) :
    (aggQuery db pid balls strikes (some hand) = [] →
      aggQuery db pid balls strikes none = [] →
      recommend_pitch db pid balls strikes hand =
        { recommended_pitch_type := "FF"
          confidence := 1/2
          rationale :=
            ["Insufficient historical data for this situation; defaulting to four-seam fastball."]
          historical_outcomes :=
            { sample_size := 0, whiff_pct := 0, in_play_hard_hit_pct := 0 } }) ∧
    ((aggQuery db pid balls strikes (some hand) ≠ [] ∨
        aggQuery db pid balls strikes none ≠ []) →
      (recommend_pitch db pid balls strikes hand).rationale ≠ [] ∧
        11/20 ≤ (recommend_pitch db pid balls strikes hand).confidence ∧
        (recommend_pitch db pid balls strikes hand).confidence ≤ 19/20) := by
  constructor
  · intro h1 h2
    simp [recommend_pitch, recommend_pitch_run, h1, h2, recommendFromRows,
      defaultRecommendation]
  · intro hdata
    by_cases hex : aggQuery db pid balls strikes (some hand) = []
    · have hpool : aggQuery db pid balls strikes none ≠ [] := by
        rcases hdata with hd | hd
        · exact absurd hex hd
        · exact hd
      have hval : recommend_pitch db pid balls strikes hand =
          recommendFromRows (aggQuery db pid balls strikes none) := by
        simp [recommend_pitch, recommend_pitch_run, hex]
      rw [hval]
      exact rec_response_props _ hpool
        (fun r hr => (aggQuery_row_bounds db pid balls strikes none r hr).2.2)
    · have hval : recommend_pitch db pid balls strikes hand =
          recommendFromRows (aggQuery db pid balls strikes (some hand)) := by
        simp [recommend_pitch, recommend_pitch_run, hex]
      rw [hval]
      exact rec_response_props _ hex
        (fun r hr => (aggQuery_row_bounds db pid balls strikes (some hand) r hr).2.2)

/-- Witness for C3: with qualifying data the response has a rationale and a
clamped confidence; with an empty store it is exactly the default. -/
theorem recommend_total_spec_witness :
    (recommend_pitch dbR 1 1 2 "R").rationale ≠ [] ∧
      11/20 ≤ (recommend_pitch dbR 1 1 2 "R").confidence ∧
      (recommend_pitch dbR 1 1 2 "R").confidence ≤ 19/20 ∧
      recommend_pitch [] 1 1 2 "R" =
        { recommended_pitch_type := "FF"
          confidence := 1/2
          rationale :=
            ["Insufficient historical data for this situation; defaulting to four-seam fastball."]
          historical_outcomes :=
            { sample_size := 0, whiff_pct := 0, in_play_hard_hit_pct := 0 } } := by
  have h := (recommend_total_spec dbR 1 1 2 "R").2 (Or.inl (by decide))
  have h0 := (recommend_total_spec [] 1 1 2 "R").1 (by decide) (by decide)
  exact ⟨h.1, h.2.1, h.2.2, h0⟩

/-! ## Pitch-location summary (claim C8) -/

/-- The accumulate-if-present loop of `pitcher_pitches` collects exactly the
non-null values, in order. -/
theorem foldl_append_filterMap (g : Pitch → Option ℚ) (rows : List Pitch)
    (acc : List ℚ) :
    rows.foldl (fun a p => match g p with | some v => a ++ [v] | none => a) acc =
      acc ++ rows.filterMap g := by
  induction rows generalizing acc with
  | nil => simp
  | cons p ps ih =>
    rw [List.foldl_cons, List.filterMap_cons]
    cases hp : g p with
    | none =>
      simp only [hp]
      exact ih acc
    | some v =>
      simp only [hp]
      rw [ih (acc ++ [v]), List.append_assoc]
      rfl

/-- Claim C8: `avg_sz_top`/`avg_sz_bot` are the arithmetic means of the
non-null `sz_top`/`sz_bot` values over the returned rows, each `null`
exactly when no such value is present (so the division never sees a zero
denominator); zero located rows give an empty pitch list and null averages. -/
theorem location_summary_means (db : List Pitch) (pid balls strikes : Int)
    (bh : Option String) (lim : Nat) :
    (((loc_query db pid balls strikes (effectiveHand bh) lim).filterMap Pitch.sz_top ≠ []) →
      (pitcher_pitches db pid balls strikes bh lim).avg_sz_top =
        some (((loc_query db pid balls strikes (effectiveHand bh) lim).filterMap Pitch.sz_top).sum /
          (((loc_query db pid balls strikes (effectiveHand bh) lim).filterMap Pitch.sz_top).length : ℚ))) ∧
    ((pitcher_pitches db pid balls strikes bh lim).avg_sz_top = none ↔
      (loc_query db pid balls strikes (effectiveHand bh) lim).filterMap Pitch.sz_top = []) ∧
    (((loc_query db pid balls strikes (effectiveHand bh) lim).filterMap Pitch.sz_bot ≠ []) →
      (pitcher_pitches db pid balls strikes bh lim).avg_sz_bot =
        some (((loc_query db pid balls strikes (effectiveHand bh) lim).filterMap Pitch.sz_bot).sum /
          (((loc_query db pid balls strikes (effectiveHand bh) lim).filterMap Pitch.sz_bot).length : ℚ))) ∧
    ((pitcher_pitches db pid balls strikes bh lim).avg_sz_bot = none ↔
      (loc_query db pid balls strikes (effectiveHand bh) lim).filterMap Pitch.sz_bot = []) ∧
    (loc_query db pid balls strikes (effectiveHand bh) lim = [] →
      (pitcher_pitches db pid balls strikes bh lim).pitches = [] ∧
        (pitcher_pitches db pid balls strikes bh lim).avg_sz_top = none ∧
        (pitcher_pitches db pid balls strikes bh lim).avg_sz_bot = none) := by
  have htop : (pitcher_pitches db pid balls strikes bh lim).avg_sz_top =
      (if ((loc_query db pid balls strikes (effectiveHand bh) lim).filterMap Pitch.sz_top).isEmpty
        then none
        else some (((loc_query db pid balls strikes (effectiveHand bh) lim).filterMap Pitch.sz_top).sum /
          (((loc_query db pid balls strikes (effectiveHand bh) lim).filterMap Pitch.sz_top).length : ℚ))) := by
    simp only [pitcher_pitches]
    rw [foldl_append_filterMap, List.nil_append]
  have hbot : (pitcher_pitches db pid balls strikes bh lim).avg_sz_bot =
      (if ((loc_query db pid balls strikes (effectiveHand bh) lim).filterMap Pitch.sz_bot).isEmpty
        then none
        else some (((loc_query db pid balls strikes (effectiveHand bh) lim).filterMap Pitch.sz_bot).sum /
          (((loc_query db pid balls strikes (effectiveHand bh) lim).filterMap Pitch.sz_bot).length : ℚ))) := by
    simp only [pitcher_pitches]
    rw [foldl_append_filterMap, List.nil_append]
  refine ⟨?_, ?_, ?_, ?_, ?_⟩
  · intro hne
    rw [htop, if_neg (by simpa [List.isEmpty_iff] using hne)]
  · rw [htop]
    by_cases hc : (loc_query db pid balls strikes (effectiveHand bh) lim).filterMap Pitch.sz_top = []
    · simp [hc]
    · rw [if_neg (by simpa [List.isEmpty_iff] using hc)]
      simp [hc]
  · intro hne
    rw [hbot, if_neg (by simpa [List.isEmpty_iff] using hne)]
  · rw [hbot]
    by_cases hc : (loc_query db pid balls strikes (effectiveHand bh) lim).filterMap Pitch.sz_bot = []
    · simp [hc]
    · rw [if_neg (by simpa [List.isEmpty_iff] using hc)]
      simp [hc]
  · intro hrows
    refine ⟨?_, ?_, ?_⟩
    · simp only [pitcher_pitches]
      rw [hrows]
      rfl
    · rw [htop, hrows]
      rfl
    · rw [hbot, hrows]
      rfl

/-- Witness for C8 at the empty store: empty pitch list, null averages. -/
theorem location_summary_means_witness :
    (pitcher_pitches [] 1 1 2 none 500).pitches = [] ∧
      (pitcher_pitches [] 1 1 2 none 500).avg_sz_top = none ∧
      (pitcher_pitches [] 1 1 2 none 500).avg_sz_bot = none :=
  (location_summary_means [] 1 1 2 none 500).2.2.2.2 (by decide)

/-! ## Batter-hand filtering of the read endpoints (claims C6 and C10) -/

/-- Anything but a literal `"L"`/`"R"` leaves the hand clause out. -/
theorem effectiveHand_eq_none (bh : Option String) (h1 : bh ≠ some "L")
    (h2 : bh ≠ some "R") : effectiveHand bh = none := by
  unfold effectiveHand
  rw [beq_eq_false_iff_ne.mpr h1, beq_eq_false_iff_ne.mpr h2]
  rfl

/-- Counterexample to C10 as stated: the location response echoes the raw
`batter_hand` parameter, so with the invalid hand `"x"` the response is not
exactly the response for an omitted hand (the echoed field differs), even on
an empty store. -/
theorem invalid_hand_echo_counterexample :
    pitcher_pitches [] 1 0 0 (some "x") 500 ≠ pitcher_pitches [] 1 0 0 none 500 := by
  decide

/-- C10 amended: for any `batter_hand` other than exactly `"L"`/`"R"`, no
hand filter is applied. The usage response is then exactly the response for
an omitted hand; the location response has identical data (pitches,
averages, echoed situation) and differs from the omitted-hand response only
in the echoed `batter_hand` field. -/
theorem invalid_hand_ignored_amended (db : List Pitch) (pid : Int)
    (bh : Option String) (h1 : bh ≠ some "L") (h2 : bh ≠ some "R") :
    pitcher_usage db pid bh = pitcher_usage db pid none ∧
    ∀ (balls strikes : Int) (lim : Nat),
      { pitcher_pitches db pid balls strikes bh lim with batter_hand := none } =
        pitcher_pitches db pid balls strikes none lim := by
  have he := effectiveHand_eq_none bh h1 h2
  have he0 : effectiveHand none = none := rfl
  constructor
  · unfold pitcher_usage
    rw [he, he0]
  · intro balls strikes lim
    unfold pitcher_pitches
    rw [he, he0]

/-- Witness for the amended C10 with the invalid hand `"x"`. -/
theorem invalid_hand_ignored_amended_witness :
    pitcher_usage dbR 1 (some "x") = pitcher_usage dbR 1 none ∧
      { pitcher_pitches dbR 1 1 2 (some "x") 500 with batter_hand := none } =
        pitcher_pitches dbR 1 1 2 none 500 := by
  have h := invalid_hand_ignored_amended dbR 1 (some "x") (by decide) (by decide)
  exact ⟨h.1, h.2 1 2 500⟩

/-- Claim C6 is a code bug: the endpoint spells its lower bounds `ge0=0`
instead of `ge=0`, an unrecognized keyword the framework ignores, so
`balls = -1` and `strikes = -1` pass the boundary validation that the spec
says must reject them; the upper bounds, the `limit` bounds and the
`limit` default of 500 behave as specified. -/
theorem pitches_validation_divergence :
    pitchesParamsAccepted (-1) 0 500 = true ∧
      pitchesParamsClaimed (-1) 0 500 = false ∧
      pitchesParamsAccepted 0 (-1) 500 = true ∧
      pitchesParamsClaimed 0 (-1) 500 = false ∧
      pitchesParamsAccepted 4 0 500 = false ∧
      pitchesParamsAccepted 0 3 500 = false ∧
      pitchesParamsAccepted 0 0 0 = false ∧
      pitchesParamsAccepted 0 0 2001 = false ∧
      effectiveLimit none = 500 := by
  decide
